import Mathlib

/-!
Verification development for the `chash` struct-layout extractor
(`src/main.rs`).  The program parses a C translation unit with libclang,
builds a registry of record (struct/union/enum) definitions keyed by
canonical type name, selects target records by name filters, computes the
dependency closure over field underlying types, and prints the records.

The external semantic engine (libclang, via the `clang` crate) is modelled
at its interface boundary: a `CType` carries the answers libclang would
give (canonical display name, pointee, size, member offsets), and an
`Entity` carries a declaration node's kind, definition flag, name, type and
children.  The `visit_children` traversal is an external engine call; the
registry pass is modelled as the fold of the visitor callback over the
externally produced sequence of visited nodes (`get_canonical_entity` is
likewise engine-side: the model's nodes are the canonicalized entities the
callback receives).  Rust panics (`unwrap`, `assert_eq!`, `unreachable!`,
map indexing) are modelled as the `.error` case of `Except Unit`.
-/

namespace Chash

/-- Model of a libclang `Type` at the interface used by the program:
`canonicalName` is `get_canonical_type().get_display_name()`,
`sizeofResult` is `get_sizeof().ok()`, `offsetofs` answers
`get_offsetof(member).ok()` (in bits), and the `ptr` constructor carries
the `get_pointee_type()` answer. -/
inductive CType where
  | base (canonicalName : String) (sizeofResult : Option Nat)
      (offsetofs : List (String × Nat))
  | ptr (canonicalName : String) (sizeofResult : Option Nat)
      (offsetofs : List (String × Nat)) (pointee : CType)

/-- Display name of the canonical type (`get_canonical_type().get_display_name()`). -/
def CType.canonicalName : CType → String
  | .base c _ _ => c
  | .ptr c _ _ _ => c

/-- Result of `get_sizeof().ok()`. -/
def CType.sizeofResult : CType → Option Nat
  | .base _ s _ => s
  | .ptr _ s _ _ => s

/-- The member-offset table backing `get_offsetof`. -/
def CType.offsetofs : CType → List (String × Nat)
  | .base _ _ o => o
  | .ptr _ _ o _ => o

/-- Lookup in a `(String × α)` association list (first match wins). -/
def lookupA {α : Type} : List (String × α) → String → Option α
  | [], _ => none
  | (k, v) :: rest, key => if k = key then some v else lookupA rest key

/-- `struct_type.get_offsetof(&name).ok()` from the interface model. -/
def offsetofA (t : CType) (n : String) : Option Nat :=
  lookupA t.offsetofs n

/-- `fn underlying_type`: strip pointer indirection with a while loop, then
take the canonical type (whose display name `canonicalName` already
records). -/
def underlying_type : CType → CType
  | .base c s o => .base c s o
  | .ptr _ _ _ p => underlying_type p

/-- `impl Into<TypeId> for Type`: the canonical display name, serving as the
sole type identity. -/
def typeIdOf (t : CType) : String := t.canonicalName

/-- The declaration kinds the program distinguishes (`EntityKind`); every
other libclang kind is collapsed into `otherKind`. -/
inductive EntityKind where
  | structDecl | unionDecl | enumDecl | typedefDecl
  | fieldDecl | enumConstantDecl | otherKind
deriving DecidableEq

/-- Model of a libclang `Entity` (declaration node): kind, whether it is a
definition, optional name, optional type, the enum-constant integer value
the engine could report (never queried by the program), and children. -/
inductive Entity where
  | mk (kind : EntityKind) (isDef : Bool) (name : Option String)
      (ty : Option CType) (enumValue : Option Nat) (children : List Entity)

/-- Declaration kind of a node. -/
def Entity.kind : Entity → EntityKind
  | .mk k _ _ _ _ _ => k

/-- `is_definition()`. -/
def Entity.isDef : Entity → Bool
  | .mk _ d _ _ _ _ => d

/-- `get_name()`. -/
def Entity.name : Entity → Option String
  | .mk _ _ n _ _ _ => n

/-- `get_type()`. -/
def Entity.ty : Entity → Option CType
  | .mk _ _ _ t _ _ => t

/-- The integer value the engine would report for an enum constant node
(`get_enum_constant_value`); the program never queries it. -/
def Entity.enumValue : Entity → Option Nat
  | .mk _ _ _ _ v _ => v

/-- `get_children()`. -/
def Entity.children : Entity → List Entity
  | .mk _ _ _ _ _ cs => cs

/-- Rebuild a node with a different reported enum-constant value, all else
equal (used to state that the program ignores that value). -/
def setEnumValue : Entity → Option Nat → Entity
  | .mk k d n t _ cs, v => .mk k d n t v cs

/-- Kind test shared by both branches of `find_record_def`:
struct, union or enum declaration. -/
def isRecordDeclKind (k : EntityKind) : Bool :=
  k == .structDecl || k == .unionDecl || k == .enumDecl

/-- `fn find_record_def`: a definition of record kind qualifies under its
own name (or, if anonymous, under its canonical type name — panicking if
`get_type()` is `None`); a typedef qualifies through its first record-kind
child under the typedef's name (`get_name()?` yields `None` overall when
the typedef is unnamed).  `.error` models the `unwrap` panic. -/
def find_record_def (node : Entity) : Except Unit (Option (Entity × String)) :=
  if node.isDef && isRecordDeclKind node.kind then
    match node.name with
    | some n => .ok (some (node, n))
    | none =>
      match node.ty with
      | some t => .ok (some (node, typeIdOf t))
      | none => .error ()
  else if node.kind == .typedefDecl then
    match node.children.find? (fun c => isRecordDeclKind c.kind) with
    | some child =>
      match node.name with
      | some n => .ok (some (child, n))
      | none => .ok none
    | none => .ok none
  else
    .ok none

/-- `struct Field` from the source: optional member name, canonical
declared type, optional bit offset, and the pointer-stripped underlying
type used for dependency edges. -/
structure Field where
  name : Option String
  type_id : String
  offset : Option Nat
  underlying : String
deriving DecidableEq

/-- `enum RecordKind`. -/
inductive RecordKind where
  | Struct | Union | Enum
deriving DecidableEq

/-- `parse_display` snake_case rendering of `RecordKind`. -/
def RecordKind.render : RecordKind → String
  | .Struct => "struct"
  | .Union => "union"
  | .Enum => "enum"

/-- `struct RecordInfo`: `aliases` models the `BTreeSet<String>` as a
strictly sorted list. -/
structure RecordInfo where
  kind : RecordKind
  aliases : List String
  size : Nat
  type_id : String
  fields : List Field
deriving DecidableEq

/-- `impl Display for Field`: `name: type_id` with `_` for a missing name,
then ` @ offset` only when the offset is present. -/
def renderField (f : Field) : String :=
  (f.name.getD "_") ++ ": " ++ f.type_id ++
    (match f.offset with
     | some o => " @ " ++ toString o
     | none => "")

/-- `impl Display for RecordInfo`: `TypeId[size] kind { f1, f2, ... }`. -/
def renderRecord (r : RecordInfo) : String :=
  r.type_id ++ "[" ++ toString r.size ++ "] " ++ r.kind.render ++ " \x7b " ++
    String.intercalate ", " (r.fields.map renderField) ++ " \x7d"

/-- Lexicographic comparison of character lists (computable form of the
`List Char` order underlying `String`'s order, which is how Rust's `Ord`
for `String` compares for `BTreeSet`). -/
def charListLt : List Char → List Char → Bool
  | _, [] => false
  | [], _ :: _ => true
  | c :: cs, d :: ds =>
    if c < d then true
    else if d < c then false
    else charListLt cs ds

/-- Computable lexicographic order on strings. -/
def strLtB (a b : String) : Bool := charListLt a.toList b.toList

/-- Insertion into a `BTreeSet<String>` modelled on strictly sorted lists:
keeps the list sorted (lexicographically ascending) and duplicate-free. -/
def btreeInsert (x : String) : List String → List String
  | [] => [x]
  | y :: ys =>
    if strLtB x y then x :: y :: ys
    else if x = y then y :: ys
    else y :: btreeInsert x ys

/-- `HashSet` insertion (membership semantics only). -/
def insertSet (x : String) (l : List String) : List String :=
  if x ∈ l then l else x :: l

/-- Mutable state threaded through the `visit_children` callback:
`struct_lookup: HashMap<TypeId, RecordInfo>` as an association list and
`targets: HashSet<TypeId>`. -/
structure PassState where
  struct_lookup : List (String × RecordInfo)
  targets : List String
deriving DecidableEq

/-- Replace the value stored at a key, leaving everything else unchanged
(the effect of mutating a `HashMap` entry in place). -/
def updateA : List (String × RecordInfo) → String → RecordInfo →
    List (String × RecordInfo)
  | [], _, _ => []
  | (k, v) :: rest, key, nv =>
    if k = key then (k, nv) :: rest else (k, v) :: updateA rest key nv

/-- The child filter applied when building `fields`: field declarations,
enum constants, and nested union/struct declarations are kept. -/
def keepChild (c : Entity) : Bool :=
  c.kind == .fieldDecl || c.kind == .enumConstantDecl ||
    c.kind == .unionDecl || c.kind == .structDecl

/-- Building one `Field` from a kept child: `child.get_type().unwrap()`
panics when the type is missing (`.error`); the offset is the enclosing
record's offset-of the child's name when the child has one, `None` when the
query fails or the child is unnamed. -/
def buildField (struct_type : CType) (child : Entity) : Except Unit Field :=
  match child.ty with
  | none => .error ()
  | some t =>
    .ok { name := child.name
          type_id := typeIdOf t
          offset := child.name.bind (fun n => offsetofA struct_type n)
          underlying := typeIdOf (underlying_type t) }

/-- The `match node.get_kind()` inside `or_insert_with`; the wildcard arm is
`unreachable!()`, modelled as a panic. -/
def recordKindOf : EntityKind → Except Unit RecordKind
  | .structDecl => .ok .Struct
  | .unionDecl => .ok .Union
  | .enumDecl => .ok .Enum
  | _ => .error ()

/-- Effectful map used for `.map(...).collect()` over children, where the
per-child closure can panic. -/
def mapME (f : Entity → Except Unit Field) : List Entity → Except Unit (List Field)
  | [] => .ok []
  | x :: xs =>
    match f x with
    | .error e => .error e
    | .ok y =>
      match mapME f xs with
      | .error e => .error e
      | .ok ys => .ok (y :: ys)

/-- One invocation of the `visit_children` callback on a visited node:
find a qualifying (record, name) pair; resolve the record's type and size,
silently contributing nothing when either query fails; create the
`RecordInfo` on first discovery of its TypeId (kind, size, fields fixed
then); record the TypeId as a target when the name matches a filter; and
insert the name into the aliases. -/
def processNode (filters : List String) (st : PassState) (nodeIn : Entity) :
    Except Unit PassState :=
  match find_record_def nodeIn with
  | .error e => .error e
  | .ok none => .ok st
  | .ok (some (rec, name)) =>
    match rec.ty with
    | none => .ok st
    | some struct_type =>
      match struct_type.sizeofResult with
      | none => .ok st
      | some size =>
        match lookupA st.struct_lookup (typeIdOf struct_type) with
        | some info =>
          .ok { struct_lookup := updateA st.struct_lookup (typeIdOf struct_type)
                  { info with aliases := btreeInsert name info.aliases },
                targets := if name ∈ filters
                  then insertSet info.type_id st.targets
                  else st.targets }
        | none =>
          match recordKindOf rec.kind with
          | .error e => .error e
          | .ok kind =>
            match mapME (buildField struct_type) (rec.children.filter keepChild) with
            | .error e => .error e
            | .ok fields =>
              .ok { struct_lookup := (typeIdOf struct_type,
                      { kind := kind, size := size,
                        type_id := typeIdOf struct_type,
                        aliases := btreeInsert name [],
                        fields := fields }) :: st.struct_lookup,
                    targets := if name ∈ filters
                      then insertSet (typeIdOf struct_type) st.targets
                      else st.targets }

/-- Folding the callback over the visited nodes, aborting on panic. -/
def passNodes (filters : List String) : PassState → List Entity →
    Except Unit PassState
  | st, [] => .ok st
  | st, n :: ns =>
    match processNode filters st n with
    | .error e => .error e
    | .ok st' => passNodes filters st' ns

/-- The whole registry-building pass: the callback folded from the empty
state over the node sequence the external traversal produces. -/
def runPass (filters : List String) (nodes : List Entity) :
    Except Unit PassState :=
  passNodes filters { struct_lookup := [], targets := [] } nodes

/-- Number of keys not yet discovered; the potential driving the
termination of the closure loop. -/
def countNotIn (keys d : List String) : Nat :=
  keys.countP (fun k => decide (k ∉ d))

lemma countNotIn_cons_le (keys d : List String) (u : String) :
    countNotIn keys (u :: d) ≤ countNotIn keys d := by
  induction keys with
  | nil => exact Nat.le_refl _
  | cons k ks ih =>
    unfold countNotIn at *
    by_cases h2 : k ∈ d
    · have h : k ∈ u :: d := List.mem_cons_of_mem _ h2
      rw [List.countP_cons_of_neg _ _ (by simp [h]),
        List.countP_cons_of_neg _ _ (by simp [h2])]
      exact ih
    · by_cases h : k ∈ u :: d
      · rw [List.countP_cons_of_neg _ _ (by simp [h]),
          List.countP_cons_of_pos _ _ (by simp [h2])]
        omega
      · rw [List.countP_cons_of_pos _ _ (by simp [h]),
          List.countP_cons_of_pos _ _ (by simp [h2])]
        omega

lemma countNotIn_cons_lt (keys d : List String) (u : String)
    (hu : u ∈ keys) (hd : u ∉ d) :
    countNotIn keys (u :: d) < countNotIn keys d := by
  induction keys with
  | nil => cases hu
  | cons k ks ih =>
    unfold countNotIn
    by_cases hk : k = u
    · subst hk
      have t1 := countNotIn_cons_le ks d k
      unfold countNotIn at t1
      rw [List.countP_cons_of_neg _ _ (by simp),
        List.countP_cons_of_pos _ _ (by simp [hd])]
      omega
    · have hu' : u ∈ ks := by
        rcases List.mem_cons.mp hu with h | h
        · exact absurd h.symm hk
        · exact h
      have ht := ih hu'
      unfold countNotIn at ht
      by_cases h2 : k ∈ d
      · have h3 : k ∈ u :: d := List.mem_cons_of_mem _ h2
        rw [List.countP_cons_of_neg _ _ (by simp [h3]),
          List.countP_cons_of_neg _ _ (by simp [h2])]
        omega
      · rw [List.countP_cons_of_pos _ _ (by simp [hk, h2]),
          List.countP_cons_of_pos _ _ (by simp [h2])]
        omega

lemma lookupA_isSome_iff {α : Type} (l : List (String × α)) (x : String) :
    (lookupA l x).isSome ↔ x ∈ l.map Prod.fst := by
  induction l with
  | nil => simp [lookupA]
  | cons p rest ih =>
    obtain ⟨k, v⟩ := p
    by_cases h : k = x
    · subst h; simp [lookupA]
    · simp [lookupA, h, ih, Ne.symm h]

/-- The `// Discover` part of one loop iteration: for every field whose
underlying type is a registry key not yet discovered, mark it discovered
and push it.  Returns the new stack and the new discovered set. -/
def discoverFields (lookup : List (String × RecordInfo)) :
    List Field → List String → List String → List String × List String
  | [], stack, discovered => (stack, discovered)
  | f :: fs, stack, discovered =>
    match lookupA lookup f.underlying with
    | none => discoverFields lookup fs stack discovered
    | some _ =>
      if f.underlying ∈ discovered then
        discoverFields lookup fs stack discovered
      else
        discoverFields lookup fs (f.underlying :: stack)
          (f.underlying :: discovered)

lemma discoverFields_measure (lookup : List (String × RecordInfo)) :
    ∀ (fs : List Field) (stack discovered : List String),
      2 * countNotIn (lookup.map Prod.fst)
          (discoverFields lookup fs stack discovered).2 +
        (discoverFields lookup fs stack discovered).1.length ≤
      2 * countNotIn (lookup.map Prod.fst) discovered + stack.length := by
  intro fs
  induction fs with
  | nil => intro stack discovered; exact Nat.le_refl _
  | cons f fs ih =>
    intro stack discovered
    unfold discoverFields
    cases hlk : lookupA lookup f.underlying with
    | none => exact ih stack discovered
    | some r =>
      by_cases h2 : f.underlying ∈ discovered
      · simp only [h2, if_true]
        exact ih stack discovered
      · simp only [h2, if_false]
        have hmem : f.underlying ∈ lookup.map Prod.fst := by
          refine (lookupA_isSome_iff lookup f.underlying).mp ?_
          rw [hlk]; rfl
        have hlt := countNotIn_cons_lt (lookup.map Prod.fst) discovered
          f.underlying hmem h2
        have ht := ih (f.underlying :: stack) (f.underlying :: discovered)
        simp only [List.length_cons] at ht
        omega

/-- The per-root traversal loop (`while let Some(type_id) = stack.pop()`):
the `assert_eq!` that the popped id was never visited and the
`struct_lookup[&type_id]` index are modelled as panics (`.error`); the
popped id's record key is inserted into the `BTreeSet` accumulator and the
record's fields are scanned for new registry keys to discover. -/
def closureLoop (lookup : List (String × RecordInfo)) :
    List String → List String → List String → List String →
    Except Unit (List String)
  | [], _, _, deps => .ok deps
  | tid :: rest, visited, discovered, deps =>
    if tid ∈ visited then .error ()
    else
      match lookupA lookup tid with
      | none => .error ()
      | some node =>
        closureLoop lookup
          (discoverFields lookup node.fields rest discovered).1
          (tid :: visited)
          (discoverFields lookup node.fields rest discovered).2
          (btreeInsert node.type_id deps)
  termination_by stack _ discovered _ =>
    2 * countNotIn (lookup.map Prod.fst) discovered + stack.length
  decreasing_by
    have h := discoverFields_measure lookup node.fields rest discovered
    simp only [List.length_cons]
    omega

/-- One iteration of `for target in targets`: fresh `visited` and
`discovered` sets, the stack seeded with the target, the target marked
discovered. -/
def rootClosure (lookup : List (String × RecordInfo)) (deps : List String)
    (target : String) : Except Unit (List String) :=
  closureLoop lookup [target] [] [target] deps

/-- Folding the per-root loop over the target list, accumulating the shared
`type_dependencies` set. -/
def closureAllFrom (lookup : List (String × RecordInfo)) :
    List String → List String → Except Unit (List String)
  | deps, [] => .ok deps
  | deps, t :: ts =>
    match rootClosure lookup deps t with
    | .error e => .error e
    | .ok deps' => closureAllFrom lookup deps' ts

/-- The whole closure phase: `type_dependencies` starts empty. -/
def closureAll (lookup : List (String × RecordInfo)) (targets : List String) :
    Except Unit (List String) :=
  closureAllFrom lookup [] targets

/-- The final output loop: `println!("{}", struct_lookup[&dep])` for each
dependency in `BTreeSet` order; the map index is a potential panic. -/
def outputPhase (lookup : List (String × RecordInfo)) :
    List String → Except Unit (List String)
  | [] => .ok []
  | d :: ds =>
    match lookupA lookup d with
    | none => .error ()
    | some r =>
      match outputPhase lookup ds with
      | .error e => .error e
      | .ok ls => .ok (renderRecord r :: ls)

/-- Observable outcome of a run: `error` is an `anyhow` error return
(non-zero exit), `panicked` a Rust panic (also non-zero), `ok lines` a
zero exit with the given stdout lines. -/
inductive Outcome where
  | error
  | panicked
  | ok (lines : List String)
deriving DecidableEq

/-- `fn main`: argument handling (program name, source file, then the
required name filters), the `ensure!` on a non-empty filter set, clang
initialization and parsing (modelled by the two flags), then the pass,
closure and output phases. -/
def mainModel (args : List String) (clangOk parseOk : Bool)
    (nodes : List Entity) : Outcome :=
  match args with
  | [] => .error
  | _prog :: rest =>
    match rest with
    | [] => .error
    | _file :: filters =>
      if filters.isEmpty then .error
      else if !clangOk then .error
      else if !parseOk then .error
      else
        match runPass filters nodes with
        | .error _ => .panicked
        | .ok st =>
          match closureAll st.struct_lookup st.targets with
          | .error _ => .panicked
          | .ok deps =>
            match outputPhase st.struct_lookup deps with
            | .error _ => .panicked
            | .ok lines => .ok lines

/-- Dependency edge of the closure graph: `a`'s record has a field whose
underlying type is `b`, and `b` is itself a registry key (the
`contains_key` guard — edges to unregistered types are dead). -/
def Edge (lookup : List (String × RecordInfo)) (a b : String) : Prop :=
  ∃ r, lookupA lookup a = some r ∧
    ∃ f ∈ r.fields, f.underlying = b ∧ (lookupA lookup b).isSome

/-- Reachability along `Edge` (reflexive–transitive closure). -/
def Reachable (lookup : List (String × RecordInfo)) (a b : String) : Prop :=
  Relation.ReflTransGen (Edge lookup) a b

/-- Modelled from the spec: a field renders as `name: type_id(bit_width) @
offset` with the `(bit_width)` part present exactly when the bit-field
width is set, the ` @ offset` part present exactly when the offset is set,
and a placeholder `_` for a missing name (§4.6 of the spec). -/
def specFieldRender (name : Option String) (tid : String) (bitWidth : Option Nat)
    (offset : Option Nat) : String :=
  (name.getD "_") ++ ": " ++ tid ++
    (match bitWidth with
     | some w => "(" ++ toString w ++ ")"
     | none => "") ++
    (match offset with
     | some o => " @ " ++ toString o
     | none => "")

/-- Modelled from the spec: a record renders as
`TypeId[size] kind { field1, field2, ... }` (§4.6 of the spec). -/
def specRecordRender (tid : String) (size : Nat) (kind : RecordKind)
    (fieldStrs : List String) : String :=
  tid ++ "[" ++ toString size ++ "] " ++ kind.render ++ " \x7b " ++
    String.intercalate ", " fieldStrs ++ " \x7d"

/-- A typedef node wrapping a record node, as produced by
`typedef struct ... Name;` — the shape the second branch of
`find_record_def` recognizes. -/
def mkTypedefNode (rec : Entity) (nm : String) : Entity :=
  .mk .typedefDecl true (some nm) none none [rec]

/-- Repeated alias insertion: the net effect on a stored `RecordInfo` of a
sequence of further encounters under the given names. -/
def aliasFold (info : RecordInfo) (nms : List String) : RecordInfo :=
  nms.foldl (fun i nm => { i with aliases := btreeInsert nm i.aliases }) info

/-- Concrete fixture: a simple struct `S` with no record-typed fields. -/
def tS : CType := .base "S" (some 4) []

/-- Declaration node for `struct S { };`. -/
def entS : Entity := .mk .structDecl true (some "S") (some tS) none []

/-- The registry record the pass builds for `entS`. -/
def recS : RecordInfo :=
  { kind := .Struct, aliases := ["S"], size := 4, type_id := "S", fields := [] }

/-- The pass state after visiting `entS` with filter `S`. -/
def stS : PassState := { struct_lookup := [("S", recS)], targets := ["S"] }

/-- Concrete fixture: the enum type `Color`, whose offset-of query table is
empty (libclang's `get_offsetof` fails on enum constants). -/
def tColor : CType := .base "Color" (some 4) []

/-- The int type as seen by the engine. -/
def tInt : CType := .base "int" (some 4) []

/-- Enum constant node `RED = 5` inside `enum Color`. -/
def entRED : Entity := .mk .enumConstantDecl false (some "RED") (some tInt) (some 5) []

/-- Declaration node for `enum Color { RED = 5 };`. -/
def entColor : Entity := .mk .enumDecl true (some "Color") (some tColor) none [entRED]

/-- The `Field` the program builds for `entRED`. -/
def fRED : Field :=
  { name := some "RED", type_id := "int", offset := none, underlying := "int" }

/-- Concrete fixture: a record type whose `get_sizeof` fails. -/
def tNoSize : CType := .base "NS" none []

/-- Declaration node of a struct whose size query fails. -/
def entNoSize : Entity := .mk .structDecl true (some "NS") (some tNoSize) none []

/-- A field-declaration node whose `get_type()` answer is missing. -/
def entBadField : Entity := .mk .fieldDecl false (some "x") none none []

/-- A struct definition containing `entBadField` as its only member. -/
def entBadStruct : Entity :=
  .mk .structDecl true (some "S") (some (.base "S" (some 8) [])) none [entBadField]

/-- Field `b: B` of record `A`. -/
def fieldAB : Field :=
  { name := some "b", type_id := "B", offset := some 0, underlying := "B" }

/-- Registry record of struct `A`, which depends on `B` through `fieldAB`. -/
def recA : RecordInfo :=
  { kind := .Struct, aliases := ["A"], size := 16, type_id := "A",
    fields := [fieldAB] }

/-- Registry record of struct `B`, which depends on nothing. -/
def recB : RecordInfo :=
  { kind := .Struct, aliases := ["B"], size := 4, type_id := "B", fields := [] }

/-- Registry with `A` depending on `B` and no cycle. -/
def lookupAB : List (String × RecordInfo) := [("A", recA), ("B", recB)]

/-- Field `next: Node *` whose underlying type is `Node` itself. -/
def fieldNode : Field :=
  { name := some "next", type_id := "Node *", offset := some 0,
    underlying := "Node" }

/-- Registry record of the self-referential `struct Node`. -/
def recNode : RecordInfo :=
  { kind := .Struct, aliases := ["Node"], size := 8, type_id := "Node",
    fields := [fieldNode] }

/-- Registry containing only the self-referential `Node`. -/
def lookupNode : List (String × RecordInfo) := [("Node", recNode)]

/-- Concrete fixture: the canonical type of `struct Point`. -/
def tPoint : CType := .base "Point" (some 8) []

/-- Registry record already stored for `Point`. -/
def recPoint : RecordInfo :=
  { kind := .Struct, aliases := ["Point"], size := 8, type_id := "Point",
    fields := [] }

/-- The record-definition node for `struct Point`. -/
def entPointDef : Entity := .mk .structDecl true (some "Point") (some tPoint) none []

/-- A later typedef of the same record under the alias `PointAlias`. -/
def typedefPoint : Entity := mkTypedefNode entPointDef "PointAlias"

lemma charListLt_iff (as : List Char) : ∀ bs, charListLt as bs = true ↔ as < bs := by
  induction as with
  | nil =>
    intro bs
    cases bs with
    | nil =>
      constructor
      · intro h; simp [charListLt] at h
      · intro h; cases h
    | cons d ds =>
      constructor
      · intro _; exact List.Lex.nil
      · intro _; rfl
  | cons c cs ih =>
    intro bs
    cases bs with
    | nil =>
      constructor
      · intro h; simp [charListLt] at h
      · intro h; cases h
    | cons d ds =>
      by_cases h1 : c < d
      · constructor
        · intro _; exact List.Lex.rel h1
        · intro _
          unfold charListLt
          rw [if_pos h1]
      · by_cases h2 : d < c
        · constructor
          · intro h
            unfold charListLt at h
            rw [if_neg h1, if_pos h2] at h
            cases h
          · intro h
            exfalso
            cases h with
            | rel hr => exact h1 hr
            | cons ht => exact absurd h2 (lt_irrefl _)
        · have hcd : c = d := le_antisymm (not_lt.mp h2) (not_lt.mp h1)
          subst hcd
          constructor
          · intro h
            unfold charListLt at h
            rw [if_neg h1, if_neg h2] at h
            exact List.Lex.cons ((ih ds).mp h)
          · intro h
            unfold charListLt
            rw [if_neg h1, if_neg h2]
            cases h with
            | rel hr => exact absurd hr h1
            | cons ht => exact (ih ds).mpr ht

lemma strLtB_iff (a b : String) : strLtB a b = true ↔ a < b := by
  rw [String.lt_iff_toList_lt]
  exact charListLt_iff a.toList b.toList

lemma btreeInsert_mem (x : String) : ∀ (l : List String) (a : String),
    a ∈ btreeInsert x l ↔ a = x ∨ a ∈ l := by
  intro l
  induction l with
  | nil => intro a; simp [btreeInsert]
  | cons y ys ih =>
    intro a
    unfold btreeInsert
    by_cases h1 : strLtB x y = true
    · rw [if_pos h1]
      simp [List.mem_cons]
    · rw [if_neg h1]
      by_cases h2 : x = y
      · subst h2
        rw [if_pos rfl]
        simp only [List.mem_cons]
        tauto
      · rw [if_neg h2]
        simp only [List.mem_cons, ih]
        tauto

lemma btreeInsert_pairwise (x : String) : ∀ (l : List String),
    l.Pairwise (· < ·) → (btreeInsert x l).Pairwise (· < ·) := by
  intro l
  induction l with
  | nil => intro _; simp [btreeInsert]
  | cons y ys ih =>
    intro hp
    rcases List.pairwise_cons.mp hp with ⟨hy, hys⟩
    unfold btreeInsert
    by_cases h1 : strLtB x y = true
    · have hxy : x < y := (strLtB_iff x y).mp h1
      rw [if_pos h1]
      refine List.pairwise_cons.mpr ⟨?_, hp⟩
      intro b hb
      rcases List.mem_cons.mp hb with rfl | hb
      · exact hxy
      · exact lt_trans hxy (hy b hb)
    · by_cases h2 : x = y
      · rw [if_neg h1, if_pos h2]
        exact hp
      · have hyx : y < x := by
          rcases lt_trichotomy x y with h | h | h
          · exact absurd ((strLtB_iff x y).mpr h) h1
          · exact absurd h h2
          · exact h
        rw [if_neg h1, if_neg h2]
        refine List.pairwise_cons.mpr ⟨?_, ih hys⟩
        intro b hb
        rcases (btreeInsert_mem x ys b).mp hb with rfl | hb
        · exact hyx
        · exact hy b hb

lemma pairwise_lt_nodup (l : List String) (h : l.Pairwise (· < ·)) : l.Nodup :=
  h.imp (fun hlt => ne_of_lt hlt)

lemma insertSet_mem (x : String) (l : List String) (a : String) :
    a ∈ insertSet x l ↔ a = x ∨ a ∈ l := by
  unfold insertSet
  by_cases h : x ∈ l
  · rw [if_pos h]
    constructor
    · intro ha; exact Or.inr ha
    · rintro (rfl | ha)
      · exact h
      · exact ha
  · rw [if_neg h]
    exact List.mem_cons

lemma lookupA_mem {α : Type} : ∀ (l : List (String × α)) (k : String) (v : α),
    lookupA l k = some v → (k, v) ∈ l := by
  intro l
  induction l with
  | nil => intro k v h; simp [lookupA] at h
  | cons p rest ih =>
    intro k v h
    obtain ⟨k', v'⟩ := p
    unfold lookupA at h
    by_cases he : k' = k
    · subst he
      rw [if_pos rfl] at h
      cases h
      exact List.mem_cons_self _ _
    · rw [if_neg he] at h
      exact List.mem_cons_of_mem _ (ih k v h)

lemma updateA_lookup_self : ∀ (l : List (String × RecordInfo)) (k : String)
    (v nv : RecordInfo), lookupA l k = some v →
    lookupA (updateA l k nv) k = some nv := by
  intro l
  induction l with
  | nil => intro k v nv h; simp [lookupA] at h
  | cons p rest ih =>
    intro k v nv h
    obtain ⟨k', v'⟩ := p
    unfold lookupA at h
    unfold updateA
    by_cases he : k' = k
    · rw [if_pos he]
      unfold lookupA
      rw [if_pos he]
    · rw [if_neg he] at h
      rw [if_neg he]
      unfold lookupA
      rw [if_neg he]
      exact ih k v nv h

lemma updateA_lookup_isSome : ∀ (l : List (String × RecordInfo)) (k : String)
    (nv : RecordInfo) (k' : String),
    (lookupA (updateA l k nv) k').isSome = (lookupA l k').isSome := by
  intro l
  induction l with
  | nil => intro k nv k'; rfl
  | cons p rest ih =>
    intro k nv k'
    obtain ⟨k0, v0⟩ := p
    unfold updateA
    by_cases he : k0 = k
    · rw [if_pos he]
      unfold lookupA
      by_cases he' : k0 = k'
      · rw [if_pos he', if_pos he']
        rfl
      · rw [if_neg he', if_neg he']
    · rw [if_neg he]
      unfold lookupA
      by_cases he' : k0 = k'
      · rw [if_pos he', if_pos he']
      · rw [if_neg he', if_neg he']
        exact ih k nv k'

lemma discoverFields_spec (lookup : List (String × RecordInfo)) :
    ∀ (fs : List Field) (stack discovered : List String),
    ∃ pushes : List String,
      discoverFields lookup fs stack discovered =
        (pushes ++ stack, pushes ++ discovered) ∧
      pushes.Nodup ∧
      (∀ x ∈ pushes, x ∉ discovered ∧ (lookupA lookup x).isSome = true ∧
        ∃ f ∈ fs, f.underlying = x) ∧
      (∀ f ∈ fs, (lookupA lookup f.underlying).isSome = true →
        f.underlying ∈ pushes ∨ f.underlying ∈ discovered) := by
  intro fs
  induction fs with
  | nil =>
    intro stack discovered
    exact ⟨[], rfl, List.nodup_nil, by simp, by simp⟩
  | cons f fs ih =>
    intro stack discovered
    unfold discoverFields
    cases hlk : lookupA lookup f.underlying with
    | none =>
      obtain ⟨P, hP, hnd, hprop, hcov⟩ := ih stack discovered
      refine ⟨P, hP, hnd, ?_, ?_⟩
      · intro x hx
        obtain ⟨h1, h2, g, hg, hgu⟩ := hprop x hx
        exact ⟨h1, h2, g, List.mem_cons_of_mem _ hg, hgu⟩
      · intro g hg hsome
        rcases List.mem_cons.mp hg with rfl | hg'
        · rw [hlk] at hsome
          simp at hsome
        · exact hcov g hg' hsome
    | some r =>
      by_cases h2 : f.underlying ∈ discovered
      · rw [if_pos h2]
        obtain ⟨P, hP, hnd, hprop, hcov⟩ := ih stack discovered
        refine ⟨P, hP, hnd, ?_, ?_⟩
        · intro x hx
          obtain ⟨h1, hs, g, hg, hgu⟩ := hprop x hx
          exact ⟨h1, hs, g, List.mem_cons_of_mem _ hg, hgu⟩
        · intro g hg hsome
          rcases List.mem_cons.mp hg with rfl | hg'
          · exact Or.inr h2
          · exact hcov g hg' hsome
      · rw [if_neg h2]
        obtain ⟨P, hP, hnd, hprop, hcov⟩ :=
          ih (f.underlying :: stack) (f.underlying :: discovered)
        refine ⟨P ++ [f.underlying], ?_, ?_, ?_, ?_⟩
        · rw [hP]
          simp only [List.append_assoc, List.singleton_append]
        · have hu : f.underlying ∉ P := fun hin =>
            ((hprop _ hin).1) (List.mem_cons_self _ _)
          simp [List.nodup_append, hnd, hu]
        · intro x hx
          rcases List.mem_append.mp hx with hx | hx
          · obtain ⟨h1, hs, g, hg, hgu⟩ := hprop x hx
            exact ⟨fun hd => h1 (List.mem_cons_of_mem _ hd), hs,
              g, List.mem_cons_of_mem _ hg, hgu⟩
          · have hx' : x = f.underlying := List.mem_singleton.mp hx
            subst hx'
            refine ⟨h2, ?_, f, List.mem_cons_self _ _, rfl⟩
            rw [hlk]
            rfl
        · intro g hg hsome
          rcases List.mem_cons.mp hg with rfl | hg'
          · exact Or.inl (List.mem_append.mpr (Or.inr (List.mem_singleton.mpr rfl)))
          · rcases hcov g hg' hsome with h | h
            · exact Or.inl (List.mem_append.mpr (Or.inl h))
            · rcases List.mem_cons.mp h with he | h3
              · refine Or.inl (List.mem_append.mpr (Or.inr ?_))
                rw [he]
                exact List.mem_singleton.mpr rfl
              · exact Or.inr h3

/-- Invariant of the per-root traversal loop, tying together the stack, the
grey/visited set, the discovered set and the accumulated dependency set. -/
structure LoopInv (lookup : List (String × RecordInfo)) (t : String)
    (stack visited discovered deps : List String) : Prop where
  stack_disc : ∀ x ∈ stack, x ∈ discovered
  disc_split : ∀ x ∈ discovered, x ∈ stack ∨ x ∈ visited
  stack_vis : ∀ x ∈ stack, x ∉ visited
  stack_nodup : stack.Nodup
  disc_keys : ∀ x ∈ discovered, (lookupA lookup x).isSome = true
  disc_reach : ∀ x ∈ discovered, Reachable lookup t x
  vis_disc : ∀ x ∈ visited, x ∈ discovered
  vis_closed : ∀ v ∈ visited, ∀ s, Edge lookup v s → s ∈ discovered
  vis_deps : ∀ x ∈ visited, x ∈ deps
  deps_closed : ∀ v ∈ deps, ∀ s, Edge lookup v s → s ∈ discovered ∨ s ∈ deps
  deps_sorted : deps.Pairwise (· < ·)

/-- What the per-root loop guarantees about its result. -/
structure LoopOut (lookup : List (String × RecordInfo)) (t : String)
    (discovered deps deps' : List String) : Prop where
  sorted : deps'.Pairwise (· < ·)
  mono : ∀ x ∈ deps, x ∈ deps'
  disc_sub : ∀ x ∈ discovered, x ∈ deps'
  closed : ∀ v ∈ deps', ∀ s, Edge lookup v s → s ∈ deps'
  sound : ∀ x ∈ deps', x ∈ deps ∨ Reachable lookup t x

lemma closureLoop_spec (lookup : List (String × RecordInfo))
    (hK : ∀ p ∈ lookup, p.2.type_id = p.1) (t : String) :
    ∀ stack visited discovered deps,
    LoopInv lookup t stack visited discovered deps →
    ∃ deps', closureLoop lookup stack visited discovered deps = .ok deps' ∧
      LoopOut lookup t discovered deps deps' := by
  intro stack visited discovered deps
  induction stack, visited, discovered, deps using closureLoop.induct lookup with
  | case1 visited discovered deps =>
    intro hInv
    refine ⟨deps, by simp [closureLoop], ?_⟩
    have hdisc : ∀ x ∈ discovered, x ∈ deps := by
      intro x hx
      rcases hInv.disc_split x hx with h | h
      · exact absurd h (List.not_mem_nil x)
      · exact hInv.vis_deps x h
    exact { sorted := hInv.deps_sorted
            mono := fun x hx => hx
            disc_sub := hdisc
            closed := fun v hv s hs => by
              rcases hInv.deps_closed v hv s hs with h | h
              · exact hdisc s h
              · exact h
            sound := fun x hx => Or.inl hx }
  | case2 tid rest visited discovered deps htid =>
    intro hInv
    exact absurd htid (hInv.stack_vis tid (List.mem_cons_self _ _))
  | case3 tid rest visited discovered deps htid hlk =>
    intro hInv
    have h := hInv.disc_keys tid (hInv.stack_disc tid (List.mem_cons_self _ _))
    rw [hlk] at h
    simp at h
  | case4 tid rest visited discovered deps htid val hlk ih =>
    intro hInv
    have hmem := lookupA_mem lookup tid val hlk
    have htideq : val.type_id = tid := hK (tid, val) hmem
    have htid_in_disc : tid ∈ discovered :=
      hInv.stack_disc tid (List.mem_cons_self _ _)
    have hreach_tid : Reachable lookup t tid := hInv.disc_reach tid htid_in_disc
    obtain ⟨P, hP, hPnd, hPprop, hPcov⟩ :=
      discoverFields_spec lookup val.fields rest discovered
    rw [hP, htideq] at ih
    have hEdgeCov : ∀ s, Edge lookup tid s → s ∈ P ++ discovered := by
      intro s hs
      obtain ⟨r, hr, f, hf, hfu, hsome⟩ := hs
      rw [hlk] at hr
      cases hr
      rcases hPcov f hf (by rw [hfu]; exact hsome) with h | h
      · exact List.mem_append.mpr (Or.inl (hfu ▸ h))
      · exact List.mem_append.mpr (Or.inr (hfu ▸ h))
    have hEdgeNew : ∀ x ∈ P, Edge lookup tid x := by
      intro x hx
      obtain ⟨hnd2, hsome, f, hf, hfu⟩ := hPprop x hx
      exact ⟨val, hlk, f, hf, hfu, hsome⟩
    have hInv' : LoopInv lookup t (P ++ rest) (tid :: visited)
        (P ++ discovered) (btreeInsert tid deps) :=
      { stack_disc := by
          intro x hx
          rcases List.mem_append.mp hx with h | h
          · exact List.mem_append.mpr (Or.inl h)
          · exact List.mem_append.mpr
              (Or.inr (hInv.stack_disc x (List.mem_cons_of_mem _ h)))
        disc_split := by
          intro x hx
          rcases List.mem_append.mp hx with h | h
          · exact Or.inl (List.mem_append.mpr (Or.inl h))
          · rcases hInv.disc_split x h with h' | h'
            · rcases List.mem_cons.mp h' with rfl | h2
              · exact Or.inr (List.mem_cons_self _ _)
              · exact Or.inl (List.mem_append.mpr (Or.inr h2))
            · exact Or.inr (List.mem_cons_of_mem _ h')
        stack_vis := by
          intro x hx hv
          rcases List.mem_append.mp hx with h | h
          · have hnd2 := (hPprop x h).1
            rcases List.mem_cons.mp hv with rfl | hv2
            · exact hnd2 htid_in_disc
            · exact hnd2 (hInv.vis_disc x hv2)
          · rcases List.mem_cons.mp hv with rfl | hv2
            · exact (List.nodup_cons.mp hInv.stack_nodup).1 h
            · exact hInv.stack_vis x (List.mem_cons_of_mem _ h) hv2
        stack_nodup := by
          refine hPnd.append (List.nodup_cons.mp hInv.stack_nodup).2 ?_
          intro x hxP hxrest
          exact (hPprop x hxP).1
            (hInv.stack_disc x (List.mem_cons_of_mem _ hxrest))
        disc_keys := by
          intro x hx
          rcases List.mem_append.mp hx with h | h
          · exact (hPprop x h).2.1
          · exact hInv.disc_keys x h
        disc_reach := by
          intro x hx
          rcases List.mem_append.mp hx with h | h
          · exact Relation.ReflTransGen.tail hreach_tid (hEdgeNew x h)
          · exact hInv.disc_reach x h
        vis_disc := by
          intro x hx
          rcases List.mem_cons.mp hx with rfl | h
          · exact List.mem_append.mpr (Or.inr htid_in_disc)
          · exact List.mem_append.mpr (Or.inr (hInv.vis_disc x h))
        vis_closed := by
          intro v hv s hs
          rcases List.mem_cons.mp hv with rfl | h
          · exact hEdgeCov s hs
          · exact List.mem_append.mpr (Or.inr (hInv.vis_closed v h s hs))
        vis_deps := by
          intro x hx
          rcases List.mem_cons.mp hx with rfl | h
          · exact (btreeInsert_mem _ deps _).mpr (Or.inl rfl)
          · exact (btreeInsert_mem tid deps x).mpr (Or.inr (hInv.vis_deps x h))
        deps_closed := by
          intro v hv s hs
          rcases (btreeInsert_mem tid deps v).mp hv with rfl | h
          · exact Or.inl (hEdgeCov s hs)
          · rcases hInv.deps_closed v h s hs with h' | h'
            · exact Or.inl (List.mem_append.mpr (Or.inr h'))
            · exact Or.inr ((btreeInsert_mem tid deps s).mpr (Or.inr h'))
        deps_sorted := btreeInsert_pairwise tid deps hInv.deps_sorted }
    obtain ⟨deps', hrun, hout⟩ := ih hInv'
    have hstep : closureLoop lookup (tid :: rest) visited discovered deps =
        closureLoop lookup (discoverFields lookup val.fields rest discovered).1
          (tid :: visited) (discoverFields lookup val.fields rest discovered).2
          (btreeInsert val.type_id deps) := by
      rw [closureLoop]
      rw [if_neg htid, hlk]
    refine ⟨deps', ?_, ?_⟩
    · rw [hstep, hP, htideq]
      exact hrun
    · exact { sorted := hout.sorted
              mono := fun x hx =>
                hout.mono x ((btreeInsert_mem tid deps x).mpr (Or.inr hx))
              disc_sub := fun x hx =>
                hout.disc_sub x (List.mem_append.mpr (Or.inr hx))
              closed := hout.closed
              sound := by
                intro x hx
                rcases hout.sound x hx with h | h
                · rcases (btreeInsert_mem tid deps x).mp h with rfl | h2
                  · exact Or.inr hreach_tid
                  · exact Or.inl h2
                · exact Or.inr h }

lemma rootClosure_spec (lookup : List (String × RecordInfo))
    (hK : ∀ p ∈ lookup, p.2.type_id = p.1) (t : String) (deps : List String)
    (ht : (lookupA lookup t).isSome = true)
    (hsorted : deps.Pairwise (· < ·))
    (hclosed : ∀ v ∈ deps, ∀ s, Edge lookup v s → s ∈ deps) :
    ∃ deps', rootClosure lookup deps t = .ok deps' ∧
      deps'.Pairwise (· < ·) ∧ (∀ x ∈ deps, x ∈ deps') ∧ t ∈ deps' ∧
      (∀ v ∈ deps', ∀ s, Edge lookup v s → s ∈ deps') ∧
      (∀ x ∈ deps', x ∈ deps ∨ Reachable lookup t x) := by
  have hInv : LoopInv lookup t [t] [] [t] deps :=
    { stack_disc := by intro x hx; exact hx
      disc_split := by intro x hx; exact Or.inl hx
      stack_vis := by intro x _ hv; exact absurd hv (List.not_mem_nil x)
      stack_nodup := List.nodup_singleton t
      disc_keys := by
        intro x hx
        rcases List.mem_singleton.mp hx with rfl
        exact ht
      disc_reach := by
        intro x hx
        rcases List.mem_singleton.mp hx with rfl
        exact Relation.ReflTransGen.refl
      vis_disc := by intro x hx; exact absurd hx (List.not_mem_nil x)
      vis_closed := by intro v hv; exact absurd hv (List.not_mem_nil v)
      vis_deps := by intro x hx; exact absurd hx (List.not_mem_nil x)
      deps_closed := by
        intro v hv s hs
        exact Or.inr (hclosed v hv s hs)
      deps_sorted := hsorted }
  obtain ⟨deps', hrun, hout⟩ := closureLoop_spec lookup hK t [t] [] [t] deps hInv
  exact ⟨deps', hrun, hout.sorted, hout.mono,
    hout.disc_sub t (List.mem_singleton.mpr rfl), hout.closed, hout.sound⟩

lemma closureAllFrom_spec (lookup : List (String × RecordInfo))
    (hK : ∀ p ∈ lookup, p.2.type_id = p.1) :
    ∀ (targets deps : List String),
    (∀ x ∈ targets, (lookupA lookup x).isSome = true) →
    deps.Pairwise (· < ·) →
    (∀ v ∈ deps, ∀ s, Edge lookup v s → s ∈ deps) →
    ∃ out, closureAllFrom lookup deps targets = .ok out ∧
      out.Pairwise (· < ·) ∧
      (∀ x ∈ deps, x ∈ out) ∧
      (∀ t ∈ targets, t ∈ out) ∧
      (∀ v ∈ out, ∀ s, Edge lookup v s → s ∈ out) ∧
      (∀ x ∈ out, x ∈ deps ∨ ∃ t ∈ targets, Reachable lookup t x) := by
  intro targets
  induction targets with
  | nil =>
    intro deps _ hsorted hclosed
    exact ⟨deps, rfl, hsorted, fun x hx => hx, by simp, hclosed,
      fun x hx => Or.inl hx⟩
  | cons t ts ih =>
    intro deps htargets hsorted hclosed
    obtain ⟨deps1, hrun1, hs1, hmono1, htmem1, hclosed1, hsound1⟩ :=
      rootClosure_spec lookup hK t deps (htargets t (List.mem_cons_self _ _))
        hsorted hclosed
    obtain ⟨out, hrun2, hs2, hmono2, htmem2, hclosed2, hsound2⟩ :=
      ih deps1 (fun x hx => htargets x (List.mem_cons_of_mem _ hx)) hs1 hclosed1
    refine ⟨out, ?_, hs2, fun x hx => hmono2 x (hmono1 x hx), ?_, hclosed2, ?_⟩
    · simp only [closureAllFrom, hrun1]
      exact hrun2
    · intro t' ht'
      rcases List.mem_cons.mp ht' with rfl | h
      · exact hmono2 _ htmem1
      · exact htmem2 t' h
    · intro x hx
      rcases hsound2 x hx with h | h
      · rcases hsound1 x h with h' | h'
        · exact Or.inl h'
        · exact Or.inr ⟨t, List.mem_cons_self _ _, h'⟩
      · obtain ⟨t', ht', hr⟩ := h
        exact Or.inr ⟨t', List.mem_cons_of_mem _ ht', hr⟩

lemma Reachable_keys (lookup : List (String × RecordInfo)) (t x : String)
    (ht : (lookupA lookup t).isSome = true) (h : Reachable lookup t x) :
    (lookupA lookup x).isSome = true := by
  induction h with
  | refl => exact ht
  | tail hr he ih =>
    obtain ⟨r, _, f, _, _, hsome⟩ := he
    exact hsome

lemma outputPhase_ok (lookup : List (String × RecordInfo)) :
    ∀ ds : List String, (∀ d ∈ ds, (lookupA lookup d).isSome = true) →
    ∃ ls, outputPhase lookup ds = .ok ls := by
  intro ds
  induction ds with
  | nil => intro _; exact ⟨[], rfl⟩
  | cons d ds ih =>
    intro hmem
    cases hlo : lookupA lookup d with
    | none =>
      have := hmem d (List.mem_cons_self _ _)
      rw [hlo] at this
      simp at this
    | some r =>
      obtain ⟨ls, hls⟩ := ih (fun x hx => hmem x (List.mem_cons_of_mem _ hx))
      refine ⟨renderRecord r :: ls, ?_⟩
      unfold outputPhase
      rw [hlo, hls]

lemma lookupA_cons_isSome (k : String) (v : RecordInfo)
    (l : List (String × RecordInfo)) (x : String) :
    (lookupA ((k, v) :: l) x).isSome = true ↔
      x = k ∨ (lookupA l x).isSome = true := by
  simp only [lookupA]
  by_cases h : k = x
  · subst h
    simp
  · rw [if_neg h]
    constructor
    · intro hx; exact Or.inr hx
    · rintro (rfl | hx)
      · exact absurd rfl h
      · exact hx

/-- The two invariants the registry pass establishes for the closure phase:
every target is a registry key, and every stored record's `type_id` is its
own key. -/
def PassInv (st : PassState) : Prop :=
  (∀ x ∈ st.targets, (lookupA st.struct_lookup x).isSome = true) ∧
  (∀ p ∈ st.struct_lookup, p.2.type_id = p.1)

lemma updateA_mem : ∀ (l : List (String × RecordInfo)) (k : String)
    (nv : RecordInfo) (p : String × RecordInfo), p ∈ updateA l k nv →
    p ∈ l ∨ p = (k, nv) := by
  intro l
  induction l with
  | nil => intro k nv p h; simp [updateA] at h
  | cons q rest ih =>
    intro k nv p h
    obtain ⟨k0, v0⟩ := q
    unfold updateA at h
    by_cases he : k0 = k
    · rw [if_pos he] at h
      rcases List.mem_cons.mp h with rfl | h
      · subst he
        exact Or.inr rfl
      · exact Or.inl (List.mem_cons_of_mem _ h)
    · rw [if_neg he] at h
      rcases List.mem_cons.mp h with rfl | h
      · exact Or.inl (List.mem_cons_self _ _)
      · rcases ih k nv p h with h' | h'
        · exact Or.inl (List.mem_cons_of_mem _ h')
        · exact Or.inr h'

lemma passInv_existing (st : PassState) (hInv : PassInv st) (key : String)
    (info newInfo : RecordInfo) (hlo : lookupA st.struct_lookup key = some info)
    (hnew : newInfo.type_id = info.type_id) (tg : List String)
    (htg : tg = st.targets ∨ tg = insertSet info.type_id st.targets) :
    PassInv { struct_lookup := updateA st.struct_lookup key newInfo,
              targets := tg } := by
  have hkey : info.type_id = key :=
    hInv.2 (key, info) (lookupA_mem st.struct_lookup key info hlo)
  constructor
  · intro x hx
    have hx' : x = info.type_id ∨ x ∈ st.targets := by
      rcases htg with rfl | rfl
      · exact Or.inr hx
      · exact (insertSet_mem info.type_id st.targets x).mp hx
    rw [updateA_lookup_isSome]
    rcases hx' with rfl | hx'
    · rw [hkey, hlo]
      rfl
    · exact hInv.1 x hx'
  · intro p hp
    rcases updateA_mem st.struct_lookup key newInfo p hp with h | h
    · exact hInv.2 p h
    · subst h
      show newInfo.type_id = key
      rw [hnew]
      exact hkey

lemma passInv_fresh (st : PassState) (hInv : PassInv st) (key : String)
    (newInfo : RecordInfo) (hnew : newInfo.type_id = key) (tg : List String)
    (htg : tg = st.targets ∨ tg = insertSet key st.targets) :
    PassInv { struct_lookup := (key, newInfo) :: st.struct_lookup,
              targets := tg } := by
  constructor
  · intro x hx
    have hx' : x = key ∨ x ∈ st.targets := by
      rcases htg with rfl | rfl
      · exact Or.inr hx
      · exact (insertSet_mem key st.targets x).mp hx
    rw [lookupA_cons_isSome]
    rcases hx' with rfl | hx'
    · exact Or.inl rfl
    · exact Or.inr (hInv.1 x hx')
  · intro p hp
    rcases List.mem_cons.mp hp with rfl | h
    · exact hnew
    · exact hInv.2 p h

lemma processNode_inv (filters : List String) (st st' : PassState) (n : Entity)
    (hInv : PassInv st) (h : processNode filters st n = .ok st') : PassInv st' := by
  unfold processNode at h
  split at h
  · simp at h
  · cases h
    exact hInv
  · split at h
    · cases h
      exact hInv
    · split at h
      · cases h
        exact hInv
      · split at h
        · rename_i info hlo
          cases h
          split
          · exact passInv_existing st hInv _ info _ hlo (by rfl) _ (Or.inr rfl)
          · exact passInv_existing st hInv _ info _ hlo (by rfl) _ (Or.inl rfl)
        · split at h
          · simp at h
          · split at h
            · simp at h
            · cases h
              split
              · exact passInv_fresh st hInv _ _ (by rfl) _ (Or.inr rfl)
              · exact passInv_fresh st hInv _ _ (by rfl) _ (Or.inl rfl)

lemma passNodes_inv (filters : List String) :
    ∀ (nodes : List Entity) (st st' : PassState), PassInv st →
    passNodes filters st nodes = .ok st' → PassInv st' := by
  intro nodes
  induction nodes with
  | nil =>
    intro st st' hInv h
    unfold passNodes at h
    cases h
    exact hInv
  | cons n ns ih =>
    intro st st' hInv h
    unfold passNodes at h
    cases hp : processNode filters st n with
    | error e =>
      rw [hp] at h
      simp at h
    | ok st1 =>
      rw [hp] at h
      exact ih st1 st' (processNode_inv filters st st1 n hInv hp) h

lemma runPass_inv (filters : List String) (nodes : List Entity) (st : PassState)
    (h : runPass filters nodes = .ok st) : PassInv st := by
  refine passNodes_inv filters nodes { struct_lookup := [], targets := [] } st ?_ h
  constructor
  · intro x hx
    exact absurd hx (List.not_mem_nil x)
  · intro p hp
    exact absurd hp (List.not_mem_nil p)

lemma mapME_ok (t : CType) : ∀ (cs : List Entity),
    (∀ c ∈ cs, c.ty.isSome = true) →
    ∃ fs, mapME (buildField t) cs = .ok fs := by
  intro cs
  induction cs with
  | nil => intro _; exact ⟨[], rfl⟩
  | cons c cs ih =>
    intro h
    have hc := h c (List.mem_cons_self _ _)
    cases hty : c.ty with
    | none =>
      rw [hty] at hc
      simp at hc
    | some tc =>
      obtain ⟨fs, hfs⟩ := ih (fun x hx => h x (List.mem_cons_of_mem _ hx))
      have hb : buildField t c = .ok
          { name := c.name, type_id := typeIdOf tc,
            offset := c.name.bind (fun n => offsetofA t n),
            underlying := typeIdOf (underlying_type tc) } := by
        simp only [buildField, hty]
      refine ⟨Field.mk c.name (typeIdOf tc)
        (c.name.bind (fun n => offsetofA t n))
        (typeIdOf (underlying_type tc)) :: fs, ?_⟩
      simp only [mapME, hb, hfs]

lemma closureLoop_sorted (lookup : List (String × RecordInfo)) :
    ∀ stack visited discovered deps out,
    deps.Pairwise (· < ·) →
    closureLoop lookup stack visited discovered deps = .ok out →
    out.Pairwise (· < ·) := by
  intro stack visited discovered deps
  induction stack, visited, discovered, deps using closureLoop.induct lookup with
  | case1 visited discovered deps =>
    intro out hs h
    rw [closureLoop] at h
    cases h
    exact hs
  | case2 tid rest visited discovered deps htid =>
    intro out hs h
    rw [closureLoop, if_pos htid] at h
    simp at h
  | case3 tid rest visited discovered deps htid hlk =>
    intro out hs h
    rw [closureLoop, if_neg htid, hlk] at h
    simp at h
  | case4 tid rest visited discovered deps htid val hlk ih =>
    intro out hs h
    rw [closureLoop, if_neg htid, hlk] at h
    exact ih out (btreeInsert_pairwise val.type_id deps hs) h

lemma closureAllFrom_sorted (lookup : List (String × RecordInfo)) :
    ∀ targets deps out, deps.Pairwise (· < ·) →
    closureAllFrom lookup deps targets = .ok out →
    out.Pairwise (· < ·) := by
  intro targets
  induction targets with
  | nil =>
    intro deps out hs h
    cases h
    exact hs
  | cons t ts ih =>
    intro deps out hs h
    cases hr : rootClosure lookup deps t with
    | error e =>
      unfold closureAllFrom at h
      rw [hr] at h
      simp at h
    | ok deps1 =>
      unfold closureAllFrom at h
      rw [hr] at h
      exact ih deps1 out (closureLoop_sorted lookup [t] [] [t] deps deps1 hs hr) h

lemma renderField_spec (f : Field) :
    renderField f = specFieldRender f.name f.type_id none f.offset := by
  unfold renderField specFieldRender
  cases f.offset <;> simp

lemma aliasFold_mem : ∀ (nms : List String) (info : RecordInfo) (a : String),
    a ∈ (aliasFold info nms).aliases ↔ a ∈ info.aliases ∨ a ∈ nms := by
  intro nms
  induction nms with
  | nil =>
    intro info a
    simp [aliasFold]
  | cons nm nms ih =>
    intro info a
    unfold aliasFold at *
    rw [List.foldl_cons, ih]
    simp only [btreeInsert_mem, List.mem_cons]
    tauto

lemma aliasFold_sorted : ∀ (nms : List String) (info : RecordInfo),
    info.aliases.Pairwise (· < ·) →
    (aliasFold info nms).aliases.Pairwise (· < ·) := by
  intro nms
  induction nms with
  | nil =>
    intro info h
    exact h
  | cons nm nms ih =>
    intro info h
    unfold aliasFold at *
    rw [List.foldl_cons]
    exact ih _ (btreeInsert_pairwise nm info.aliases h)

/-- C6: every `RecordInfo` renders as `TypeId[size] kind { field1, field2,
... }` and every field renders in the spec's field format, with the
`@ offset` part present exactly when the offset is set and `_` for an
absent name; the `(bit_width)` part never appears because the program's
`Field` carries no bit-field width (bit fields are an unimplemented TODO in
the source), which satisfies "present exactly when set" with the width
never set. -/
theorem C6_renderer_format (r : RecordInfo) :
    renderRecord r = specRecordRender r.type_id r.size r.kind
      (r.fields.map (fun f => specFieldRender f.name f.type_id none f.offset)) := by
  unfold renderRecord specRecordRender
  have hmap : r.fields.map renderField =
      r.fields.map (fun f => specFieldRender f.name f.type_id none f.offset) := by
    apply List.map_congr_left
    intro f _
    exact renderField_spec f
  rw [hmap]

/-- C8: invoking the program with a source file but zero name filters hits
the `ensure!` configuration error (an `anyhow` error return, hence
non-zero exit) rather than producing an empty report, for every AST and
engine outcome. -/
theorem C8_empty_filter_rejected (prog file : String) (clangOk parseOk : Bool)
    (nodes : List Entity) :
    mainModel [prog, file] clangOk parseOk nodes = .error := rfl

/-- C4 counterexample: with a non-empty filter set that matches nothing the
registry pass succeeds with an empty `targets` set, and the program prints
nothing and exits zero (`.ok []`) — the claim demands a non-zero exit for
an empty target match / empty output, but no such check exists in the
code. -/
theorem C4_counterexample :
    runPass ["NoSuchName"] [entS] =
      .ok { struct_lookup := [("S", recS)], targets := [] } ∧
    mainModel ["chash", "input.c", "NoSuchName"] true true [entS] = .ok [] := by
  constructor
  · rfl
  · rfl

/-- C4 amended: the program exits non-zero only for missing arguments, an
empty filter set, clang/parse failures, or internal panics; there is no
emptiness check on `targets` or on the output — whenever the pass succeeds
with an empty target set, the program prints nothing and exits zero. -/
theorem C4_amended (prog file : String) (filters : List String)
    (nodes : List Entity) (st : PassState)
    (hf : filters ≠ [])
    (hp : runPass filters nodes = .ok st)
    (ht : st.targets = []) :
    mainModel (prog :: file :: filters) true true nodes = .ok [] := by
  have hfe : filters.isEmpty = false := by
    cases filters with
    | nil => exact absurd rfl hf
    | cons a as => rfl
  simp only [mainModel, hfe, hp, ht, Bool.not_true, Bool.false_eq_true,
    if_false, closureAll, closureAllFrom, outputPhase]

/-- Witness for C4 amended at a concrete run. -/
theorem C4_amended_witness :
    mainModel ["chash", "input.c", "NoSuchName"] true true [entS] = .ok [] :=
  C4_amended "chash" "input.c" ["NoSuchName"] [entS]
    { struct_lookup := [("S", recS)], targets := [] }
    (by simp) (by rfl) (by rfl)

/-- C3: a subsequent qualifying encounter of a TypeId already present in
the registry leaves the stored record's `kind`, `size` and `fields`
untouched (the stored value becomes `{ info with aliases := ... }`) and
only inserts the newly encountered name into the aliases set. -/
theorem C3_first_discovery_wins (filters : List String) (st : PassState)
    (nodeIn rec : Entity) (name : String) (t : CType) (sz : Nat)
    (info : RecordInfo)
    (hfr : find_record_def nodeIn = .ok (some (rec, name)))
    (hty : rec.ty = some t) (hsz : t.sizeofResult = some sz)
    (hmem : lookupA st.struct_lookup (typeIdOf t) = some info) :
    ∃ st', processNode filters st nodeIn = .ok st' ∧
      lookupA st'.struct_lookup (typeIdOf t) =
        some { info with aliases := btreeInsert name info.aliases } := by
  refine ⟨{ struct_lookup := updateA st.struct_lookup (typeIdOf t)
              ({ info with aliases := btreeInsert name info.aliases }),
            targets := if name ∈ filters
              then insertSet info.type_id st.targets
              else st.targets }, ?_, ?_⟩
  · simp only [processNode, hfr, hty, hsz, hmem]
  · exact updateA_lookup_self st.struct_lookup (typeIdOf t) info _ hmem

/-- Witness for C3: re-encountering `Point` through a later typedef. -/
theorem C3_witness :
    ∃ st', processNode [] { struct_lookup := [("Point", recPoint)], targets := [] }
        typedefPoint = .ok st' ∧
      lookupA st'.struct_lookup (typeIdOf tPoint) =
        some { recPoint with aliases := btreeInsert "PointAlias" recPoint.aliases } :=
  C3_first_discovery_wins [] _ typedefPoint entPointDef "PointAlias" tPoint 8 recPoint
    (by rfl) (by rfl) (by rfl) (by rfl)

/-- C5 counterexample: processing `enum Color { RED = 5 }` stores a field
whose offset is `none` — the enum constant's integer value (5, visible to
the engine) is never consulted, contradicting the claim that every enum
member's Field carries the constant's value as its offset. -/
theorem C5_counterexample :
    processNode [] { struct_lookup := [], targets := [] } entColor =
      .ok { struct_lookup := [("Color",
              { kind := .Enum, aliases := ["Color"], size := 4,
                type_id := "Color", fields := [fRED] })],
            targets := [] } ∧
    entRED.kind = .enumConstantDecl ∧
    entRED.enumValue = some 5 ∧
    fRED.offset = none :=
  ⟨rfl, rfl, rfl, rfl⟩

/-- C5 amended: a built Field's offset is exactly the enclosing record's
offset-of query on the child's name when the child has one (`none` when
the query fails or the child is unnamed); the enum constant's integer
value is never consulted — the built Field is independent of it. -/
theorem C5_offset_rule (struct_type : CType) (child : Entity) (f : Field)
    (h : buildField struct_type child = .ok f) :
    f.offset = child.name.bind (fun n => offsetofA struct_type n) ∧
    ∀ v, buildField struct_type (setEnumValue child v) = .ok f := by
  obtain ⟨k, d, n, ty, ev, cs⟩ := child
  cases ty with
  | none =>
    simp [buildField, Entity.ty] at h
  | some t =>
    simp only [buildField, Entity.ty] at h
    cases h
    exact ⟨rfl, fun v => rfl⟩

/-- Witness for C5 amended: the enum constant `RED = 5` gets offset `none`
(the offset-of query fails on the enum type), and rewriting the reported
constant value to 99 leaves the built Field unchanged. -/
theorem C5_offset_rule_witness :
    fRED.offset = entRED.name.bind (fun n => offsetofA tColor n) ∧
    buildField tColor (setEnumValue entRED (some 99)) = .ok fRED :=
  ⟨(C5_offset_rule tColor entRED fRED rfl).1,
   (C5_offset_rule tColor entRED fRED rfl).2 (some 99)⟩

/-- C7 counterexample: the registry pass panics (aborts) on an AST
containing a qualifying struct definition one of whose kept children has
no resolvable type — `child.get_type().unwrap()` — contradicting "never
panics for every input AST". -/
theorem C7_counterexample :
    runPass ["S"] [entBadStruct] = .error () ∧
    find_record_def entBadStruct = .ok (some (entBadStruct, "S")) ∧
    entBadField.ty = none :=
  ⟨rfl, rfl, rfl⟩

/-- C7 amended: failures of the record's own type or size query are
swallowed (the node contributes nothing and the state is unchanged), and a
failed offset query only yields a `none` offset — but a kept child whose
type query fails panics: `buildField` aborts exactly when the child's type
is missing. -/
theorem C7_failure_policy :
    (∀ (filters : List String) (st : PassState) (nodeIn rec : Entity)
      (name : String),
      find_record_def nodeIn = .ok (some (rec, name)) →
      (rec.ty = none ∨ ∃ t, rec.ty = some t ∧ t.sizeofResult = none) →
      processNode filters st nodeIn = .ok st) ∧
    (∀ (struct_type : CType) (child : Entity),
      buildField struct_type child = .error () ↔ child.ty = none) := by
  constructor
  · intro filters st nodeIn rec name hfr hbad
    rcases hbad with hty | ⟨t, hty, hsz⟩
    · simp only [processNode, hfr, hty]
    · simp only [processNode, hfr, hty, hsz]
  · intro struct_type child
    cases hty : child.ty with
    | none => simp [buildField, hty]
    | some t => simp [buildField, hty]

/-- Witness for C7 amended: a struct whose size query fails contributes
nothing, and `buildField` panics exactly on the type-less child. -/
theorem C7_failure_policy_witness :
    processNode [] { struct_lookup := [], targets := [] } entNoSize =
      .ok { struct_lookup := [], targets := [] } ∧
    (buildField tColor entBadField = .error () ↔ entBadField.ty = none) :=
  ⟨C7_failure_policy.1 [] { struct_lookup := [], targets := [] } entNoSize
      entNoSize "NS" (by rfl) (Or.inr ⟨tNoSize, rfl, rfl⟩),
   C7_failure_policy.2 tColor entBadField⟩

/-- C9: a record encountered under N source-level names (here through N
typedef encounters of the same record node) yields exactly one RecordInfo
in the registry, whose aliases set contains exactly those N names
(deduplicated, the list being strictly sorted) and iterates in ascending
lexicographic order. -/
theorem C9_aliasing (names : List String) (k : EntityKind)
    (recName : Option String) (t : CType) (sz : Nat) (ev : Option Nat)
    (children : List Entity)
    (hk : isRecordDeclKind k = true)
    (hsz : t.sizeofResult = some sz)
    (hch : ∀ c ∈ children.filter keepChild, c.ty.isSome = true)
    (hne : names ≠ []) :
    ∃ st info, passNodes [] { struct_lookup := [], targets := [] }
        (names.map (mkTypedefNode (Entity.mk k true recName (some t) ev children))) =
          .ok st ∧
      st.struct_lookup = [(typeIdOf t, info)] ∧
      (∀ a, a ∈ info.aliases ↔ a ∈ names) ∧
      info.aliases.Pairwise (· < ·) := by
  obtain ⟨rk, hrk⟩ : ∃ rk, recordKindOf k = .ok rk := by
    cases k with
    | structDecl => exact ⟨.Struct, rfl⟩
    | unionDecl => exact ⟨.Union, rfl⟩
    | enumDecl => exact ⟨.Enum, rfl⟩
    | typedefDecl => simp [isRecordDeclKind] at hk
    | fieldDecl => simp [isRecordDeclKind] at hk
    | enumConstantDecl => simp [isRecordDeclKind] at hk
    | otherKind => simp [isRecordDeclKind] at hk
  obtain ⟨fs, hfs⟩ := mapME_ok t (children.filter keepChild) hch
  set rec := Entity.mk k true recName (some t) ev children with hrec
  have htd : isRecordDeclKind EntityKind.typedefDecl = false := rfl
  have hfr : ∀ nm, find_record_def (mkTypedefNode rec nm) = .ok (some (rec, nm)) := by
    intro nm
    unfold find_record_def mkTypedefNode
    simp [Entity.isDef, Entity.kind, Entity.children, Entity.name,
      List.find?, hrec, htd, hk]
  have hstep1 : ∀ nm : String,
      processNode [] { struct_lookup := [], targets := [] } (mkTypedefNode rec nm) =
        .ok { struct_lookup := [(typeIdOf t, RecordInfo.mk rk [nm] sz (typeIdOf t) fs)],
              targets := [] } := by
    intro nm
    simp only [processNode, hfr nm, hrec, Entity.ty, Entity.kind, Entity.children,
      hsz, hrk, hfs, lookupA]
    simp [btreeInsert]
  have hstep2 : ∀ (nm : String) (info : RecordInfo),
      processNode [] { struct_lookup := [(typeIdOf t, info)], targets := [] }
          (mkTypedefNode rec nm) =
        .ok { struct_lookup := [(typeIdOf t, RecordInfo.mk info.kind
                (btreeInsert nm info.aliases) info.size info.type_id info.fields)],
              targets := [] } := by
    intro nm info
    simp only [processNode, hfr nm, hrec, Entity.ty, hsz]
    simp [lookupA, updateA]
  have hfold : ∀ (nms : List String) (info : RecordInfo),
      passNodes [] { struct_lookup := [(typeIdOf t, info)], targets := [] }
          (nms.map (mkTypedefNode rec)) =
        .ok { struct_lookup := [(typeIdOf t, aliasFold info nms)],
              targets := [] } := by
    intro nms
    induction nms with
    | nil =>
      intro info
      simp [aliasFold, passNodes]
    | cons nm nms ih =>
      intro info
      rw [List.map_cons]
      simp only [passNodes, hstep2 nm info]
      rw [ih]
      simp [aliasFold, List.foldl_cons]
  obtain ⟨n1, rest, rfl⟩ := List.exists_cons_of_ne_nil hne
  refine ⟨PassState.mk [(typeIdOf t,
      aliasFold (RecordInfo.mk rk [n1] sz (typeIdOf t) fs) rest)] [],
    aliasFold (RecordInfo.mk rk [n1] sz (typeIdOf t) fs) rest, ?_, rfl, ?_, ?_⟩
  · rw [List.map_cons]
    simp only [passNodes, hstep1 n1]
    exact hfold rest _
  · intro a
    rw [aliasFold_mem]
    simp [List.mem_cons]
  · refine aliasFold_sorted rest _ ?_
    simp

/-- Witness for C9: the same struct encountered under typedef names `B`
then `A` yields one registry entry with aliases exactly `{A, B}` in
ascending order. -/
theorem C9_witness :
    ∃ st info, passNodes [] { struct_lookup := [], targets := [] }
        (["B", "A"].map (mkTypedefNode (Entity.mk .structDecl true (some "T9")
          (some (CType.base "T9" (some 4) [])) none []))) = .ok st ∧
      st.struct_lookup = [(typeIdOf (CType.base "T9" (some 4) []), info)] ∧
      (∀ a, a ∈ info.aliases ↔ a ∈ ["B", "A"]) ∧
      info.aliases.Pairwise (· < ·) :=
  C9_aliasing ["B", "A"] .structDecl (some "T9") (CType.base "T9" (some 4) []) 4
    none [] (by rfl) (by rfl) (by intro c hc; simp at hc) (by simp)

/-- C1 counterexample: in a registry where `A` depends on `B` with no
cycle, filtering on `A` emits `A`'s rendered line before `B`'s (the output
is the `BTreeSet` in ascending TypeId order), contradicting the claim that
the depended-upon record is emitted first. -/
theorem C1_counterexample :
    closureAll lookupAB ["A"] = .ok ["A", "B"] ∧
    outputPhase lookupAB ["A", "B"] =
      .ok ["A[16] struct { b: B @ 0 }", "B[4] struct {  }"] ∧
    Relation.TransGen (Edge lookupAB) "A" "B" ∧
    ¬ Relation.TransGen (Edge lookupAB) "B" "A" := by
  refine ⟨?_, by rfl, ?_, ?_⟩
  · simp [closureAll, closureAllFrom, rootClosure, closureLoop, discoverFields,
      lookupAB, recA, recB, fieldAB, btreeInsert, lookupA, strLtB, charListLt]
  · exact Relation.TransGen.single
      ⟨recA, rfl, fieldAB, List.mem_singleton.mpr rfl, rfl, rfl⟩
  · intro h
    rw [Relation.TransGen.head'_iff] at h
    obtain ⟨c, hbc, _⟩ := h
    obtain ⟨r, hr, f, hf, _, _⟩ := hbc
    have hrB : lookupA lookupAB "B" = some recB := rfl
    rw [hrB] at hr
    cases hr
    exact absurd hf (List.not_mem_nil f)

/-- C1 amended: the emission order is not topological but the ascending
lexicographic order of TypeIds — the closure set is accumulated in a
`BTreeSet<TypeId>` and the output loop iterates it in sorted order, so the
final output sequence is always strictly sorted. -/
theorem C1_lexicographic (lookup : List (String × RecordInfo))
    (targets out : List String)
    (h : closureAll lookup targets = .ok out) :
    out.Pairwise (· < ·) :=
  closureAllFrom_sorted lookup targets [] out List.Pairwise.nil h

/-- Witness for C1 amended at the concrete two-record registry. -/
theorem C1_lexicographic_witness :
    closureAll lookupAB ["A"] = .ok ["A", "B"] ∧
    List.Pairwise (· < ·) ["A", "B"] := by
  have hrun : closureAll lookupAB ["A"] = .ok ["A", "B"] := by
    simp [closureAll, closureAllFrom, rootClosure, closureLoop, discoverFields,
      lookupAB, recA, recB, fieldAB, btreeInsert, lookupA, strLtB, charListLt]
  exact ⟨hrun, C1_lexicographic lookupAB ["A"] ["A", "B"] hrun⟩

/-- C2: for every root in `targets` (all registry keys, as the pass
guarantees) and every record reachable from it along `underlying` edges
through the registry, that record appears in the closure output exactly
once; the loop is a total function, so it terminates also on
self-referential and mutually referential records. -/
theorem C2_closure_complete (lookup : List (String × RecordInfo))
    (targets : List String)
    (hT : ∀ x ∈ targets, (lookupA lookup x).isSome = true)
    (hK : ∀ p ∈ lookup, p.2.type_id = p.1) :
    ∃ out, closureAll lookup targets = .ok out ∧
      (∀ root ∈ targets, ∀ x, Reachable lookup root x → out.count x = 1) ∧
      (∀ x ∈ out, ∃ root ∈ targets, Reachable lookup root x) := by
  obtain ⟨out, hrun, hsorted, _, htmem, hclosed, hsound⟩ :=
    closureAllFrom_spec lookup hK targets [] hT List.Pairwise.nil
      (by intro v hv; exact absurd hv (List.not_mem_nil v))
  refine ⟨out, hrun, ?_, ?_⟩
  · intro root hroot x hreach
    have hmem : x ∈ out := by
      induction hreach with
      | refl => exact htmem root hroot
      | tail _ he ih => exact hclosed _ ih _ he
    exact List.count_eq_one_of_mem (pairwise_lt_nodup out hsorted) hmem
  · intro x hx
    rcases hsound x hx with h | h
    · exact absurd h (List.not_mem_nil x)
    · exact h

/-- Witness for C2: the self-referential `struct Node { struct Node *next; }`
terminates and appears exactly once. -/
theorem C2_witness :
    ∃ out, closureAll lookupNode ["Node"] = .ok out ∧
      (∀ root ∈ ["Node"], ∀ x, Reachable lookupNode root x → out.count x = 1) ∧
      (∀ x ∈ out, ∃ root ∈ ["Node"], Reachable lookupNode root x) :=
  C2_closure_complete lookupNode ["Node"] (by decide) (by decide)

/-- C10: for any state produced by the registry pass, every TypeId that
enters the traversal stack is a registry key, so the closure loop runs
without panicking (the direct map indexing succeeds and the
visited-assertion holds — each id is pushed and popped at most once per
root), and the final output loop's map indexing succeeds as well. -/
theorem C10_closure_no_panic (filters : List String) (nodes : List Entity)
    (st : PassState) (h : runPass filters nodes = .ok st) :
    ∃ out lines, closureAll st.struct_lookup st.targets = .ok out ∧
      outputPhase st.struct_lookup out = .ok lines := by
  obtain ⟨hT, hK⟩ := runPass_inv filters nodes st h
  obtain ⟨out, hrun, hsorted, _, htmem, hclosed, hsound⟩ :=
    closureAllFrom_spec st.struct_lookup hK st.targets [] hT List.Pairwise.nil
      (by intro v hv; exact absurd hv (List.not_mem_nil v))
  have hkeys : ∀ d ∈ out, (lookupA st.struct_lookup d).isSome = true := by
    intro d hd
    rcases hsound d hd with h' | h'
    · exact absurd h' (List.not_mem_nil d)
    · obtain ⟨root, hroot, hreach⟩ := h'
      exact Reachable_keys st.struct_lookup root d (hT root hroot) hreach
  obtain ⟨lines, hlines⟩ := outputPhase_ok st.struct_lookup out hkeys
  exact ⟨out, lines, hrun, hlines⟩

/-- Witness for C10 at a concrete pass result. -/
theorem C10_witness :
    ∃ out lines, closureAll stS.struct_lookup stS.targets = .ok out ∧
      outputPhase stS.struct_lookup out = .ok lines :=
  C10_closure_no_panic ["S"] [entS] stS (by rfl)

end Chash
